import Mathlib

/-!
# CHIP-8 debug overlay (`debug.go`): log pager and disassembly window

A shallow embedding of the stateful parts of `debug.go`.

* Go `int` is modelled as `Int` with explicit wrap-around (modulo `2^64`, signed) at
  64 bits (`wrapInt`); Go `uint` as `Nat` reduced modulo `2^64`.
* Go strings are byte sequences: `GoString` is a list of bytes, `len` is the
  list length and `s[:42]` is `List.take 42`.
* The package-level variables `Paused`, `Address`, `Log`, `LogPos` form the
  record `State`; every function takes the state and returns the new one.
* The non-blocking receive `select { case text := <-LogChan: ... default: }`
  is modelled by an argument `pending : Option GoString` (the line handed over
  by the channel, if one is waiting).
* Indexing a slice out of range panics in Go: `goIndex` returns `none` there,
  and the display loop is written in the `Option` monad.
* The virtual machine is not part of this file: `VM.PC`, `VM.I`, the contents
  of `VM.Memory` and `VM.Disassemble` are arguments. Calls on the renderer and
  on `fmt.Println` are returned as lists of call records, in call order.
-/

namespace Chip8Debug

/-- Number of values of a 64-bit machine word. -/
def wordSize : Nat := 18446744073709551616

/-- Signed wrap-around of an integer result into the range of Go `int`:
the value modulo `2^64` that lies in `[-2^63, 2^63)`. -/
def wrapInt (x : Int) : Int :=
  (x + 9223372036854775808) % 18446744073709551616 - 9223372036854775808

/-- Go `a - b` on `uint`: subtraction modulo `2^64`. -/
def uintSub (a b : Nat) : Nat :=
  (a % wordSize + (wordSize - b % wordSize)) % wordSize

/-- Go `a + b` on `uint`: addition modulo `2^64`. -/
def uintAdd (a b : Nat) : Nat :=
  (a + b) % wordSize

/-- A Go string: a sequence of bytes. -/
abbrev GoString := List UInt8

/-- The string literal `"..."`. -/
def ellipsis : GoString := [46, 46, 46]

/-- The package-level variables of `debug.go` (the channel `LogChan` is
modelled by the `pending` argument of `DebugLog`). -/
structure State where
  Paused : Bool
  Address : Nat
  Log : List GoString
  LogPos : Int
deriving DecidableEq

/-- The state at program start: all package variables hold their zero value. -/
def State.init : State :=
  { Paused := false, Address := 0, Log := [], LogPos := 0 }

/-- Go `len(Log)` as an `int`. -/
def State.len (s : State) : Int := (s.Log.length : Int)

/-- Go `xs[i]` for an `int` index: `none` stands for the run-time panic on an
index out of range. -/
def goIndex {α : Type} (xs : List α) (i : Int) : Option α :=
  if 0 ≤ i then xs[i.toNat]? else none

/-- Go `DebugLogHome`: `LogPos = 0`. -/
def DebugLogHome (s : State) : State :=
  { s with LogPos := 0 }

/-- Go `DebugLogEnd`: `LogPos = len(Log) - 1`. -/
def DebugLogEnd (s : State) : State :=
  { s with LogPos := wrapInt (s.len - 1) }

/-- Go `DebugLogScroll(d)`: add `d` to the cursor, then the three clamps in
source order. -/
def DebugLogScroll (s : State) (d : Int) : State :=
  let s1 : State := { s with LogPos := wrapInt (s.LogPos + d) }
  -- clamp to home
  let s2 := if s1.LogPos < 0 then DebugLogHome s1 else s1
  -- if too low, jump up to end of first screen
  let s3 : State := if 0 < d ∧ s2.LogPos < 16 then { s2 with LogPos := 16 } else s2
  -- clamp to end
  if s3.LogPos > wrapInt (s3.len - 1) then DebugLogEnd s3 else s3

/-- The `select` statement at the head of `DebugLog`: take one pending line
from the channel if there is one, following the tail when the cursor is on
the last line. -/
def drainPending (s : State) (pending : Option GoString) : State :=
  match pending with
  | some text =>
    let s1 : State :=
      if s.LogPos = wrapInt (s.len - 1) then { s with LogPos := wrapInt (s.LogPos + 1) } else s
    -- append the new line to the log
    { s1 with Log := s1.Log ++ [text] }
  | none => s

/-- A call `DrawText(text, x, y)`. -/
structure DrawCall where
  text : GoString
  x : Int
  y : Int
deriving DecidableEq

/-- The body of the display loop of `DebugLog` for one log line: the text
handed to `DrawText`. -/
def displayText (l : GoString) : GoString :=
  if l.length ≥ 45 then l.take 42 ++ ellipsis else l

/-- The display loop of `DebugLog`, `for i := 0; i < 16 && line < len(Log); i++`,
with `n = 16 - i` iterations left. Returns the `DrawText` calls in order, or
`none` if indexing `Log[line]` panics. -/
def displayLoop (log : List GoString) (x : Int) : Nat → Int → Int → Option (List DrawCall)
  | 0, _, _ => some []
  | n + 1, y, line =>
    if line < (log.length : Int) then do
      let l ← goIndex log line
      let rest ← displayLoop log x n (wrapInt (y + 10)) (wrapInt (line + 1))
      pure ({ text := displayText l, x := x, y := y } :: rest)
    else some []

/-- The first log index shown by `DebugLog`: `line := LogPos - 15`, clamped
at `0`. -/
def startLine (s : State) : Int :=
  let line := wrapInt (s.LogPos - 15)
  if line < 0 then 0 else line

/-- The display half of `DebugLog` (everything after the `select`). -/
def displayLog (s : State) (x y : Int) : Option (List DrawCall) :=
  displayLoop s.Log x 16 y (startLine s)

/-- The base-selection step at the head of `DebugAssembly`:
`if Address <= VM.PC - 38 || Address >= VM.PC - 2 || Address ^ VM.PC & 1 == 1`.
In Go `&` binds tighter than `^`, and both bind tighter than `==`, so the last
disjunct is `(Address ^ (VM.PC & 1)) == 1`. -/
def selectBase (s : State) (pc : Nat) : State :=
  if s.Address ≤ uintSub pc 38 ∨ s.Address ≥ uintSub pc 2 ∨ (s.Address ^^^ (pc &&& 1)) = 1 then
    { s with Address := uintSub pc 2 }
  else s

/-- The log has a length that a Go `int` can hold (true of every Go slice). -/
def logFits (s : State) : Prop := s.Log.length < 9223372036854775808

instance (s : State) : Decidable (logFits s) := by unfold logFits; infer_instance

/-- A finite sequence of `DebugLogScroll` calls, applied left to right. -/
def scrollAll (s : State) (ds : List Int) : State :=
  ds.foldl DebugLogScroll s

/-- The operations that act on the pager state: the three scroll functions
and the drain step of `DebugLog` (with or without a waiting line). -/
inductive PagerOp where
  | scroll (d : Int)
  | home
  | toEnd
  | drain (pending : Option GoString)
deriving DecidableEq

/-- Effect of one pager operation on the state. -/
def applyOp (s : State) : PagerOp → State
  | .scroll d => DebugLogScroll s d
  | .home => DebugLogHome s
  | .toEnd => DebugLogEnd s
  | .drain pending => drainPending s pending

/-- A finite sequence of pager operations, applied left to right. -/
def runOps (s : State) (ops : List PagerOp) : State :=
  ops.foldl applyOp s

/-- The lines of `log` at the indices `lo, lo+1, ..., hi` (inclusive). -/
def logSlice (log : List GoString) (lo hi : Nat) : List GoString :=
  (log.drop lo).take (hi + 1 - lo)

/-- The window as the specification words it: the lines at the indices
`max(0, LogPos-15)` through `LogPos` inclusive. -/
def specWindow (s : State) : List GoString :=
  logSlice s.Log (max 0 (s.LogPos - 15)).toNat s.LogPos.toNat

/-- The texts of a list of `DrawText` calls, in call order. -/
def drawnTexts (draws : List DrawCall) : List GoString :=
  draws.map DrawCall.text

/-- Cursor invariant of the pager: on a non-empty log the cursor is a valid
index; on the empty log it is `0` (initial value, `DebugLogHome`) or `-1`
(`len(Log) - 1`, set by `DebugLogEnd`). -/
def pagerInv (s : State) : Prop :=
  (s.Log = [] → s.LogPos = 0 ∨ s.LogPos = -1) ∧
  (s.Log ≠ [] → 0 ≤ s.LogPos ∧ s.LogPos ≤ s.len - 1)

/-- Go conversion `int32(v)` of an `int`: the value modulo `2^32` that lies in
`[-2^31, 2^31)`. -/
def wrapInt32 (v : Int) : Int :=
  (v + 2147483648) % 4294967296 - 2147483648

/-- A call on the renderer made by `DebugAssembly`: `Renderer.SetDrawColor`,
`Renderer.FillRect(&sdl.Rect{X, Y, W, H})` or `DrawText(text, x, y)`. -/
inductive RenderOp where
  | setDrawColor (r g b a : Nat)
  | fillRect (x y w h : Int)
  | drawText (text : GoString) (x y : Int)
deriving DecidableEq

/-- The values of the loop variable of `for i := 0; i < 38; i += 2`:
`0, 2, ..., 36`, nineteen slots. -/
def asmSlots : List Nat := (List.range 19).map (fun k => 2 * k)

/-- One iteration of the loop of `DebugAssembly` at loop variable `i`, for the
window base `addr`: the highlight (colour, then rectangle) when
`Address + uint(i) == VM.PC`, then the disassembled text. `disasm` stands for
`VM.Disassemble`. -/
def asmRow (paused : Bool) (addr pc : Nat) (disasm : Nat → GoString) (x y : Int) (i : Nat) :
    List RenderOp :=
  (if uintAdd addr i = pc then
    [if paused then RenderOp.setDrawColor 176 32 57 255 else RenderOp.setDrawColor 57 102 176 255,
     -- highlight the current instruction
     RenderOp.fillRect (wrapInt32 x) (wrapInt32 (wrapInt32 (wrapInt (y + wrapInt ((i : Int) * 5))) - 1))
       200 10]
  else []) ++
  [RenderOp.drawText (disasm (uintAdd addr i)) x (wrapInt (y + wrapInt ((i : Int) * 5)))]

/-- Go `DebugAssembly(x, y)`: the base-selection step, then the nineteen rows.
`pc` is `VM.PC` and `disasm` is `VM.Disassemble`. Returns the new state and
the renderer calls in order. -/
def DebugAssembly (s : State) (pc : Nat) (disasm : Nat → GoString) (x y : Int) :
    State × List RenderOp :=
  let s1 := selectBase s pc
  (s1, asmSlots.flatMap (asmRow s1.Paused s1.Address pc disasm x y))

/-- The loop variables of the rows that `DebugAssembly` highlights for the
window base `addr`: those with `Address + uint(i) == VM.PC`. -/
def highlightedSlots (addr pc : Nat) : List Nat :=
  asmSlots.filter (fun i => uintAdd addr i = pc)

/-- Recognises a `Renderer.FillRect` call. -/
def RenderOp.isFillRect : RenderOp → Bool
  | .fillRect _ _ _ _ => true
  | _ => false

/-- A call `fmt.Println` made by `DebugMemory`: the header
`"\nMemory dump near I..."`, or a dump line, recorded by the arguments of its
`Sprintf(" %04X - %02X %02X %02X %02X %02X %02X %02X %02X", n, ...)`: the label
`n` and the eight byte values in argument order. -/
inductive PrintCall where
  | header
  | row (n : Int) (bytes : List UInt8)
deriving DecidableEq

/-- The base of the dump, `a := int(VM.I) & 0xFFF0`, for the unsigned register
value `I`. The conversion to `int` keeps the low 64 bits and the mask has only
bits 4 to 15 set, so the result is the bitwise AND of the unsigned value with
the mask. -/
def dumpBase (I : Nat) : Int :=
  ((I &&& 0xFFF0 : Nat) : Int)

/-- The start of dump row `line`: `n := a+line*8`. -/
def rowStart (a line : Int) : Int :=
  wrapInt (a + wrapInt (line * 8))

/-- The arguments of the `Sprintf` of one dump line: the label `n` and
`VM.Memory[n + 0]` to `VM.Memory[n + 7]`; `none` if an index is out of range. -/
def dumpRow (mem : List UInt8) (n : Int) : Option PrintCall := do
  let b0 ← goIndex mem (wrapInt (n + 0))
  let b1 ← goIndex mem (wrapInt (n + 1))
  let b2 ← goIndex mem (wrapInt (n + 2))
  let b3 ← goIndex mem (wrapInt (n + 3))
  let b4 ← goIndex mem (wrapInt (n + 4))
  let b5 ← goIndex mem (wrapInt (n + 5))
  let b6 ← goIndex mem (wrapInt (n + 6))
  let b7 ← goIndex mem (wrapInt (n + 7))
  pure (PrintCall.row n [b0, b1, b2, b3, b4, b5, b6, b7])

/-- The loop of `DebugMemory`, `for line := 0; line < 8; line++`, with `k`
iterations left. -/
def dumpLoop (mem : List UInt8) (a : Int) : Nat → Int → Option (List PrintCall)
  | 0, _ => some []
  | k + 1, line =>
    if rowStart a line < 0x1000 then do
      let row ← dumpRow mem (rowStart a line)
      let rest ← dumpLoop mem a k (wrapInt (line + 1))
      pure (row :: rest)
    else dumpLoop mem a k (wrapInt (line + 1))

/-- Go `DebugMemory()`: `I` is the value of `VM.I` and `mem` the contents of
`VM.Memory`. Returns the `fmt.Println` calls in order, or `none` if an index
into `VM.Memory` panics. -/
def DebugMemory (I : Nat) (mem : List UInt8) : Option (List PrintCall) :=
  (dumpLoop mem (dumpBase I) 8 0).map (fun rows => PrintCall.header :: rows)

/-- The dump line labelled `n` that lists the eight bytes of `mem` at the
addresses `n, n+1, ..., n+7`, in increasing address order. -/
def memRow (mem : List UInt8) (n : Nat) : PrintCall :=
  PrintCall.row (n : Int) ((mem.drop n).take 8)

/-- The rectangle that `DebugAssembly` fills for the row of loop variable `i`:
`sdl.Rect{X: int32(x), Y: int32(y + i * 5) - 1, W: 200, H: 10}`. -/
def slotRect (x y : Int) (i : Nat) : RenderOp :=
  RenderOp.fillRect (wrapInt32 x) (wrapInt32 (wrapInt32 (wrapInt (y + wrapInt ((i : Int) * 5))) - 1))
    200 10

/-- The highlight colour chosen by `DebugAssembly`: one colour while paused,
another while running. -/
def highlightColor (paused : Bool) : RenderOp :=
  if paused then RenderOp.setDrawColor 176 32 57 255 else RenderOp.setDrawColor 57 102 176 255

/-- The text call of the row of loop variable `i` for the window base `addr`:
`DrawText(VM.Disassemble(Address + uint(i)), x, y + i * 5)`. -/
def slotText (addr : Nat) (disasm : Nat → GoString) (x y : Int) (i : Nat) : RenderOp :=
  RenderOp.drawText (disasm (uintAdd addr i)) x (wrapInt (y + wrapInt ((i : Int) * 5)))

/-- Go `int` values: the deltas that `DebugLogScroll` can be called with. -/
def isGoInt (d : Int) : Prop :=
  -9223372036854775808 ≤ d ∧ d < 9223372036854775808

instance (d : Int) : Decidable (isGoInt d) := by unfold isGoInt; infer_instance

/-! ## Arithmetic helpers -/

theorem wrapInt_of_fits (x : Int) (h0 : -9223372036854775808 ≤ x)
    (h1 : x < 9223372036854775808) : wrapInt x = x := by
  unfold wrapInt; omega

theorem wrapInt_lower (x : Int) : -9223372036854775808 ≤ wrapInt x := by
  unfold wrapInt; omega

theorem wrapInt_upper (x : Int) : wrapInt x < 9223372036854775808 := by
  unfold wrapInt; omega

theorem len_nonneg (s : State) : 0 ≤ s.len := by
  unfold State.len; omega

theorem len_pos_of_ne_nil (s : State) (h : s.Log ≠ []) : 1 ≤ s.len := by
  unfold State.len
  have := List.length_pos.mpr h
  omega

theorem wrapInt_len_pred (s : State) (h : logFits s) : wrapInt (s.len - 1) = s.len - 1 := by
  unfold logFits at h
  apply wrapInt_of_fits <;> unfold State.len <;> omega

/-! ## `DebugLogScroll` -/

theorem scroll_Log (s : State) (d : Int) : (DebugLogScroll s d).Log = s.Log := by
  unfold DebugLogScroll DebugLogHome DebugLogEnd
  simp only []
  split_ifs <;> rfl

theorem scroll_len (s : State) (d : Int) : (DebugLogScroll s d).len = s.len := by
  unfold State.len; rw [scroll_Log]

/-- The cursor after `DebugLogScroll`, as a function of the old cursor, the
delta and the log length. -/
theorem scroll_LogPos (s : State) (d : Int) :
    (DebugLogScroll s d).LogPos =
      (let p1 := wrapInt (s.LogPos + d)
       let p2 := if p1 < 0 then 0 else p1
       let p3 := if 0 < d ∧ p2 < 16 then 16 else p2
       if p3 > wrapInt (s.len - 1) then wrapInt (s.len - 1) else p3) := by
  unfold DebugLogScroll DebugLogHome DebugLogEnd State.len
  simp only []
  split_ifs <;> rfl

/-! ## The pager invariant -/

theorem scroll_inRange (s : State) (d : Int) (hfit : logFits s) (hne : s.Log ≠ []) :
    0 ≤ (DebugLogScroll s d).LogPos ∧ (DebugLogScroll s d).LogPos ≤ s.len - 1 := by
  have hl := len_pos_of_ne_nil s hne
  rw [scroll_LogPos, wrapInt_len_pred s hfit]
  simp only []
  have := wrapInt_lower (s.LogPos + d)
  split_ifs <;> omega

theorem scroll_empty (s : State) (d : Int) (he : s.Log = []) :
    (DebugLogScroll s d).LogPos = -1 := by
  have hl : s.len = 0 := by unfold State.len; rw [he]; rfl
  rw [scroll_LogPos, hl]
  have hw : wrapInt (0 - 1) = -1 := by decide
  rw [hw]
  simp only []
  split_ifs <;> omega

theorem scrollAll_Log (s : State) (ds : List Int) : (scrollAll s ds).Log = s.Log := by
  induction ds generalizing s with
  | nil => rfl
  | cons d ds ih =>
    show (scrollAll (DebugLogScroll s d) ds).Log = s.Log
    rw [ih, scroll_Log]

theorem scrollAll_inRange (s : State) (ds : List Int) (hfit : logFits s) (hne : s.Log ≠ [])
    (h0 : 0 ≤ s.LogPos) (h1 : s.LogPos ≤ s.len - 1) :
    0 ≤ (scrollAll s ds).LogPos ∧ (scrollAll s ds).LogPos ≤ s.len - 1 := by
  induction ds generalizing s with
  | nil => exact ⟨h0, h1⟩
  | cons d ds ih =>
    show 0 ≤ (scrollAll (DebugLogScroll s d) ds).LogPos ∧
      (scrollAll (DebugLogScroll s d) ds).LogPos ≤ s.len - 1
    have hs := scroll_inRange s d hfit hne
    have hL := scroll_Log s d
    have hlen := scroll_len s d
    have := ih (DebugLogScroll s d) (by unfold logFits; rw [hL]; exact hfit)
      (by rw [hL]; exact hne) hs.1 (by rw [hlen]; exact hs.2)
    rw [hlen] at this
    exact this

/-! ## Drain step, home and end -/

theorem drain_some_Log (s : State) (t : GoString) :
    (drainPending s (some t)).Log = s.Log ++ [t] := by
  unfold drainPending
  simp only []
  split_ifs <;> rfl

theorem drain_some_LogPos (s : State) (t : GoString) :
    (drainPending s (some t)).LogPos =
      if s.LogPos = wrapInt (s.len - 1) then wrapInt (s.LogPos + 1) else s.LogPos := by
  unfold drainPending
  simp only []
  split_ifs <;> rfl

theorem applyOp_length_le (s : State) (op : PagerOp) :
    (applyOp s op).Log.length ≤ s.Log.length + 1 := by
  cases op with
  | scroll d => show (DebugLogScroll s d).Log.length ≤ _; rw [scroll_Log]; omega
  | home => show s.Log.length ≤ _; omega
  | toEnd => show s.Log.length ≤ _; omega
  | drain pending =>
    cases pending with
    | none => show s.Log.length ≤ _; omega
    | some t =>
      show (drainPending s (some t)).Log.length ≤ _
      rw [drain_some_Log]; simp

theorem applyOp_inv (s : State) (op : PagerOp) (hfit : s.Log.length + 1 < 9223372036854775808)
    (hinv : pagerInv s) : pagerInv (applyOp s op) := by
  have hfit0 : logFits s := by unfold logFits; omega
  cases op with
  | scroll d =>
    show pagerInv (DebugLogScroll s d)
    unfold pagerInv
    rw [scroll_Log, scroll_len]
    exact ⟨fun he => Or.inr (scroll_empty s d he), fun hne => scroll_inRange s d hfit0 hne⟩
  | home =>
    show pagerInv (DebugLogHome s)
    unfold pagerInv
    refine ⟨fun _ => Or.inl rfl, fun hne => ?_⟩
    have hl := len_pos_of_ne_nil s hne
    show (0 : Int) ≤ 0 ∧ (0 : Int) ≤ s.len - 1
    omega
  | toEnd =>
    show pagerInv (DebugLogEnd s)
    unfold pagerInv
    refine ⟨fun he => Or.inr ?_, fun hne => ?_⟩
    · have he2 : s.Log = [] := he
      show wrapInt (s.len - 1) = -1
      rw [wrapInt_len_pred s hfit0]; unfold State.len; rw [he2]; rfl
    · have hl := len_pos_of_ne_nil s hne
      show 0 ≤ wrapInt (s.len - 1) ∧ wrapInt (s.len - 1) ≤ s.len - 1
      rw [wrapInt_len_pred s hfit0]; omega
  | drain pending =>
    cases pending with
    | none => exact hinv
    | some t =>
      show pagerInv (drainPending s (some t))
      unfold pagerInv
      have hlen : (drainPending s (some t)).len = s.len + 1 := by
        unfold State.len; rw [drain_some_Log]; simp
      rw [drain_some_Log, drain_some_LogPos, hlen, wrapInt_len_pred s hfit0]
      refine ⟨fun he => absurd he (by simp), fun _ => ?_⟩
      have hw : s.LogPos = s.len - 1 → wrapInt (s.LogPos + 1) = s.len := by
        intro h
        rw [h, show s.len - 1 + 1 = s.len by omega]
        apply wrapInt_of_fits <;> unfold State.len <;> omega
      by_cases hnil : s.Log = []
      · have hl : s.len = 0 := by unfold State.len; rw [hnil]; rfl
        have := hinv.1 hnil
        split_ifs with hc
        · rw [hw hc]; omega
        · omega
      · have := hinv.2 hnil
        split_ifs with hc
        · rw [hw hc]; omega
        · omega

theorem runOps_inv (s : State) (ops : List PagerOp)
    (hfit : s.Log.length + ops.length < 9223372036854775808) (hinv : pagerInv s) :
    pagerInv (runOps s ops) := by
  induction ops generalizing s with
  | nil => exact hinv
  | cons op ops ih =>
    show pagerInv (runOps (applyOp s op) ops)
    have hl := applyOp_length_le s op
    simp only [List.length_cons] at hfit
    exact ih (applyOp s op) (by omega) (applyOp_inv s op (by omega) hinv)

theorem init_inv : pagerInv State.init :=
  ⟨fun _ => Or.inl rfl, fun h => absurd rfl h⟩

/-! ## The display loop -/

theorem goIndex_natCast {α : Type} (xs : List α) (a : Nat) (h : a < xs.length) :
    goIndex xs (a : Int) = some xs[a] := by
  unfold goIndex
  simp [h]

theorem displayLoop_texts (log : List GoString) (hfit : log.length < 9223372036854775808)
    (x : Int) (n : Nat) (y : Int) (a : Nat) :
    ∃ draws, displayLoop log x n y (a : Int) = some draws ∧
      drawnTexts draws = ((log.drop a).take n).map displayText := by
  induction n generalizing y a with
  | zero => exact ⟨[], rfl, by simp [drawnTexts]⟩
  | succ n ih =>
    unfold displayLoop
    by_cases h : (a : Int) < (log.length : Int)
    · have ha : a < log.length := by omega
      have hw : wrapInt ((a : Int) + 1) = ((a + 1 : Nat) : Int) := by
        rw [wrapInt_of_fits] <;> omega
      obtain ⟨rest, hrest, htexts⟩ := ih (wrapInt (y + 10)) (a + 1)
      rw [if_pos h, goIndex_natCast log a ha, hw, hrest]
      refine ⟨_, rfl, ?_⟩
      rw [List.drop_eq_getElem_cons ha]
      simp only [drawnTexts, List.map_cons, List.take_succ_cons] at htexts ⊢
      rw [htexts]
    · have ha : log.length ≤ a := by omega
      rw [if_neg h]
      exact ⟨[], rfl, by simp [drawnTexts, List.drop_eq_nil_of_le ha]⟩

theorem startLine_nonneg (s : State) : 0 ≤ startLine s := by
  unfold startLine
  simp only []
  split_ifs <;> omega

theorem startLine_of_inRange (s : State) (hfit : logFits s) (h0 : 0 ≤ s.LogPos)
    (h1 : s.LogPos ≤ s.len - 1) : startLine s = max 0 (s.LogPos - 15) := by
  unfold logFits at hfit
  unfold State.len at h1
  unfold startLine
  rw [wrapInt_of_fits (s.LogPos - 15) (by omega) (by omega)]
  simp only []
  split_ifs <;> omega

theorem displayLog_texts (s : State) (hfit : logFits s) (x y : Int) :
    ∃ draws, displayLog s x y = some draws ∧
      drawnTexts draws = ((s.Log.drop (startLine s).toNat).take 16).map displayText := by
  unfold displayLog
  have h := displayLoop_texts s.Log hfit x 16 y (startLine s).toNat
  rw [Int.toNat_of_nonneg (startLine_nonneg s)] at h
  exact h

theorem uintSub_of_le (a b : Nat) (ha : a < wordSize) (hb : b ≤ a) : uintSub a b = a - b := by
  unfold uintSub
  unfold wordSize at *
  omega

theorem xor_parity_bit (a p : Nat) (h : a ^^^ (p &&& 1) = 1) : (a + p) % 2 = 1 := by
  rw [Nat.and_one_is_mod] at h
  rcases Nat.mod_two_eq_zero_or_one p with hp | hp
  · rw [hp, Nat.xor_zero] at h
    omega
  · rw [hp] at h
    have ha : a = 0 := by
      have := congrArg (fun z => z ^^^ 1) h
      simpa [Nat.xor_assoc] using this
    omega

theorem selectBase_Address (s : State) (pc : Nat) :
    (selectBase s pc).Address =
      if s.Address ≤ uintSub pc 38 ∨ s.Address ≥ uintSub pc 2 ∨ (s.Address ^^^ (pc &&& 1)) = 1
      then uintSub pc 2 else s.Address := by
  unfold selectBase
  split_ifs <;> rfl

/-! ## Claims about the log pager -/

/-- C1 (counterexample): the initial state (empty log, cursor `0`) satisfies
`0 <= LogPos <= max(0, len(Log)-1)`, yet one `DebugLogScroll(1)` leaves the
cursor at `-1`: the scroll is not a no-op and the lower bound `0` is broken. -/
theorem C1_scroll_empty_log_counterexample :
    (0 ≤ State.init.LogPos ∧ State.init.LogPos ≤ max 0 (State.init.len - 1)) ∧
    (scrollAll State.init [1]).LogPos = -1 ∧
    ¬ (0 ≤ (scrollAll State.init [1]).LogPos) := by
  decide

/-- C1 (amended): on every non-empty log, from every cursor with
`0 <= LogPos <= max(0, len(Log)-1)`, after each call of any finite sequence of
`DebugLogScroll(delta)` calls with arbitrary deltas the cursor satisfies
`0 <= LogPos <= max(0, len(Log)-1)`; on the empty log every `DebugLogScroll`
call sets the cursor to `len(Log) - 1 = -1`. -/
theorem C1_scroll_cursor_bounds (s : State) (ds : List Int) (hfit : logFits s) :
    (s.Log ≠ [] → 0 ≤ s.LogPos → s.LogPos ≤ max 0 (s.len - 1) →
      ∀ k, k ≤ ds.length →
        0 ≤ (scrollAll s (ds.take k)).LogPos ∧
        (scrollAll s (ds.take k)).LogPos ≤ max 0 ((scrollAll s (ds.take k)).len - 1)) ∧
    (s.Log = [] → ∀ d, (DebugLogScroll s d).LogPos = -1) := by
  refine ⟨fun hne h0 h1 k _ => ?_, fun he d => scroll_empty s d he⟩
  have hl := len_pos_of_ne_nil s hne
  have hmax : max 0 (s.len - 1) = s.len - 1 := max_eq_right (by omega)
  rw [hmax] at h1
  have hlen : (scrollAll s (ds.take k)).len = s.len := by
    unfold State.len; rw [scrollAll_Log]
  rw [hlen, hmax]
  exact scrollAll_inRange s (ds.take k) hfit hne h0 h1

/-- Witness for C1: three lines, cursor `1`, scrolls `+5, -7, +1`. -/
theorem C1_scroll_cursor_bounds_witness :
    0 ≤ (scrollAll ⟨false, 0, [[1], [2], [3]], 1⟩ ([5, -7, 1].take 3)).LogPos ∧
    (scrollAll ⟨false, 0, [[1], [2], [3]], 1⟩ ([5, -7, 1].take 3)).LogPos ≤
      max 0 ((scrollAll ⟨false, 0, [[1], [2], [3]], 1⟩ ([5, -7, 1].take 3)).len - 1) :=
  (C1_scroll_cursor_bounds ⟨false, 0, [[1], [2], [3]], 1⟩ [5, -7, 1] (by decide)).1
    (by decide) (by decide) (by decide) 3 (by decide)

/-- C2: every state reached from the initial state (empty log, cursor `0`) by a
finite sequence of `DebugLogScroll(d)`, `DebugLogHome`, `DebugLogEnd` and drain
steps (with or without a pending line), and whose log is non-empty, satisfies
`0 <= LogPos <= len(Log)-1`. The sequence is shorter than `2^63`, so that the
log length stays a Go `int`. -/
theorem C2_reachable_cursor_valid (ops : List PagerOp)
    (hfit : ops.length < 9223372036854775808)
    (hne : (runOps State.init ops).Log ≠ []) :
    0 ≤ (runOps State.init ops).LogPos ∧
    (runOps State.init ops).LogPos ≤ (runOps State.init ops).len - 1 :=
  (runOps_inv State.init ops (by simpa [State.init] using hfit) init_inv).2 hne

/-- Witness for C2: scroll on the empty log, two captured lines, end, home and
a forward scroll. -/
theorem C2_reachable_cursor_valid_witness :
    0 ≤ (runOps State.init
      [.scroll 3, .drain (some [104]), .toEnd, .drain none, .drain (some [105]), .home,
        .scroll 1]).LogPos ∧
    (runOps State.init
      [.scroll 3, .drain (some [104]), .toEnd, .drain none, .drain (some [105]), .home,
        .scroll 1]).LogPos ≤
    (runOps State.init
      [.scroll 3, .drain (some [104]), .toEnd, .drain none, .drain (some [105]), .home,
        .scroll 1]).len - 1 :=
  C2_reachable_cursor_valid _ (by decide) (by decide)

/-- C3: the drain step with a pending line `t` appends `t` to the log; the
cursor becomes the new last index (the old length) if it was at the old last
index `len(Log)-1`, and is unchanged otherwise. Holds for every log whose length
is a Go `int` and every cursor, in particular for the non-empty logs with
`0 <= LogPos <= len(Log)-1` of the claim. -/
theorem C3_drain_tail_follow (s : State) (t : GoString) (hfit : logFits s) :
    (drainPending s (some t)).Log = s.Log ++ [t] ∧
    (s.LogPos = s.len - 1 → (drainPending s (some t)).LogPos = s.len) ∧
    (s.LogPos ≠ s.len - 1 → (drainPending s (some t)).LogPos = s.LogPos) := by
  refine ⟨drain_some_Log s t, fun h => ?_, fun h => ?_⟩
  · rw [drain_some_LogPos, wrapInt_len_pred s hfit, if_pos h, h,
      show s.len - 1 + 1 = s.len by omega]
    unfold logFits at hfit
    apply wrapInt_of_fits <;> unfold State.len <;> omega
  · rw [drain_some_LogPos, wrapInt_len_pred s hfit, if_neg h]

/-- Witness for C3: two lines with the cursor on the tail. -/
theorem C3_drain_tail_follow_witness :
    (drainPending ⟨false, 0, [[1], [2]], 1⟩ (some [3])).Log = [[1], [2]] ++ [[3]] ∧
    ((1 : Int) = (State.len ⟨false, 0, [[1], [2]], 1⟩) - 1 →
      (drainPending ⟨false, 0, [[1], [2]], 1⟩ (some [3])).LogPos =
        State.len ⟨false, 0, [[1], [2]], 1⟩) ∧
    ((1 : Int) ≠ (State.len ⟨false, 0, [[1], [2]], 1⟩) - 1 →
      (drainPending ⟨false, 0, [[1], [2]], 1⟩ (some [3])).LogPos = 1) :=
  C3_drain_tail_follow ⟨false, 0, [[1], [2]], 1⟩ [3] (by decide)

/-- C4 (counterexample): with the two-line log `[[1], [2]]` and the valid cursor
`LogPos = 0`, `DebugLog` draws both lines, while the lines at the indices
`max(0, LogPos-15)` through `LogPos` are the single line `[1]`. -/
theorem C4_window_counterexample :
    (0 ≤ (⟨false, 0, [[1], [2]], 0⟩ : State).LogPos ∧
      (⟨false, 0, [[1], [2]], 0⟩ : State).LogPos ≤ (⟨false, 0, [[1], [2]], 0⟩ : State).len - 1) ∧
    (displayLog ⟨false, 0, [[1], [2]], 0⟩ 0 0).map drawnTexts = some [[1], [2]] ∧
    (specWindow ⟨false, 0, [[1], [2]], 0⟩).map displayText = [[1]] ∧
    (displayLog ⟨false, 0, [[1], [2]], 0⟩ 0 0).map drawnTexts ≠
      some ((specWindow ⟨false, 0, [[1], [2]], 0⟩).map displayText) := by
  decide

/-- C4 (amended): for every non-empty log and every cursor with
`0 <= LogPos <= len(Log)-1`, `DebugLog` draws (without an index panic), in
order, the formatted log lines starting at index `max(0, LogPos-15)`: when
`LogPos >= 15` these are exactly the lines at the indices `LogPos-15` through
`LogPos`, the last one being `Log[LogPos]`; when `LogPos < 15` they are the
first `min(16, len(Log))` lines of the log, whatever the cursor. -/
theorem C4_window_lines (s : State) (x y : Int) (hfit : logFits s) (_hne : s.Log ≠ [])
    (h0 : 0 ≤ s.LogPos) (h1 : s.LogPos ≤ s.len - 1) :
    ∃ draws, displayLog s x y = some draws ∧
      (15 ≤ s.LogPos →
        startLine s = s.LogPos - 15 ∧
        drawnTexts draws = (specWindow s).map displayText ∧
        (specWindow s).length = 16 ∧
        (specWindow s).getLast? = goIndex s.Log s.LogPos) ∧
      (s.LogPos < 15 →
        startLine s = 0 ∧
        drawnTexts draws = (s.Log.take 16).map displayText) := by
  obtain ⟨draws, hd, ht⟩ := displayLog_texts s hfit x y
  have hs := startLine_of_inRange s hfit h0 h1
  refine ⟨draws, hd, fun h15 => ?_, fun h15 => ?_⟩
  · have hmax : max 0 (s.LogPos - 15) = s.LogPos - 15 := max_eq_right (by omega)
    obtain ⟨p, hp⟩ := Int.eq_ofNat_of_zero_le h0
    have hplen : p < s.Log.length := by unfold State.len at h1; omega
    have hp15 : 15 ≤ p := by omega
    have hslice : specWindow s = (s.Log.drop (p - 15)).take 16 := by
      unfold specWindow logSlice
      rw [hmax, hp]
      have e1 : ((p : Int) - 15).toNat = p - 15 := by omega
      have e2 : (p : Int).toNat = p := by omega
      rw [e1, e2, show p + 1 - (p - 15) = 16 by omega]
    have hlen : (specWindow s).length = 16 := by
      rw [hslice, List.length_take, List.length_drop]; omega
    refine ⟨by rw [hs, hmax], ?_, hlen, ?_⟩
    · rw [ht, hs, hmax, hslice, hp]
      have e1 : ((p : Int) - 15).toNat = p - 15 := by omega
      rw [e1]
    · rw [hp, goIndex_natCast s.Log p hplen, List.getLast?_eq_getElem?, hlen, hslice]
      rw [List.getElem?_take_of_lt (by omega), List.getElem?_drop,
        show p - 15 + (16 - 1) = p by omega, List.getElem?_eq_getElem hplen]
  · have hmax : max 0 (s.LogPos - 15) = 0 := max_eq_left (by omega)
    refine ⟨by rw [hs, hmax], ?_⟩
    rw [ht, hs, hmax]
    rfl

/-- Witness for C4: a two-line log with the cursor on the first line. -/
theorem C4_window_lines_witness :
    ∃ draws, displayLog ⟨false, 0, [[1], [2]], 0⟩ 7 9 = some draws ∧
      (15 ≤ (⟨false, 0, [[1], [2]], 0⟩ : State).LogPos →
        startLine ⟨false, 0, [[1], [2]], 0⟩ = (⟨false, 0, [[1], [2]], 0⟩ : State).LogPos - 15 ∧
        drawnTexts draws = (specWindow ⟨false, 0, [[1], [2]], 0⟩).map displayText ∧
        (specWindow ⟨false, 0, [[1], [2]], 0⟩).length = 16 ∧
        (specWindow ⟨false, 0, [[1], [2]], 0⟩).getLast? =
          goIndex (⟨false, 0, [[1], [2]], 0⟩ : State).Log
            (⟨false, 0, [[1], [2]], 0⟩ : State).LogPos) ∧
      ((⟨false, 0, [[1], [2]], 0⟩ : State).LogPos < 15 →
        startLine ⟨false, 0, [[1], [2]], 0⟩ = 0 ∧
        drawnTexts draws = ((⟨false, 0, [[1], [2]], 0⟩ : State).Log.take 16).map displayText) :=
  C4_window_lines ⟨false, 0, [[1], [2]], 0⟩ 7 9 (by decide) (by decide) (by decide) (by decide)

/-- C6 (code at the failing input): from the initial state the first frame with
`VM.PC = 0x200` sets the base to `0x1FE`; when the pointer is then `0x203` the
offset `P - B = 5` is odd, the parity disjunct `(Address ^ (VM.PC & 1)) == 1`
compares `0x1FF` with `1`, and the base stays `0x1FE` instead of becoming
`P - 2 = 0x201`. -/
theorem C6_parity_not_recentred :
    (selectBase State.init 0x200).Address = 0x1FE ∧
    (0x203 - 0x1FE) % 2 = 1 ∧
    (0x1FE ^^^ (0x203 &&& 1)) = 0x1FF ∧
    (selectBase (selectBase State.init 0x200) 0x203).Address = 0x1FE ∧
    (selectBase (selectBase State.init 0x200) 0x203).Address ≠ uintSub 0x203 2 := by
  decide

/-- C7 (counterexample): with base `B = 2` and pointer `P = 6` the offset
`P - B = 4` is even and `B + 2 < P < B + 38`, yet the step moves the base to
`4`: `VM.PC - 38` wraps around in `uint` arithmetic, so `Address <= VM.PC - 38`
holds. -/
theorem C7_stability_counterexample :
    (6 - 2) % 2 = 0 ∧ 2 + 2 < 6 ∧ 6 < 2 + 38 ∧
    uintSub 6 38 = 18446744073709551584 ∧
    (selectBase ⟨false, 2, [], 0⟩ 6).Address = 4 ∧
    (selectBase ⟨false, 2, [], 0⟩ 6).Address ≠ 2 := by
  decide

/-- C7 (amended): for every `uint` base `B` and pointer `P` with `P >= 38`,
`P - B` even and `B + 2 < P < B + 38`, the base-selection step leaves the base
(and the whole state) unchanged. -/
theorem C7_stability (s : State) (pc : Nat) (hpc : pc < wordSize) (h38 : 38 ≤ pc)
    (heven : (pc - s.Address) % 2 = 0) (hlo : s.Address + 2 < pc)
    (hhi : pc < s.Address + 38) :
    (selectBase s pc).Address = s.Address ∧ selectBase s pc = s := by
  have hnot : ¬ (s.Address ≤ uintSub pc 38 ∨ s.Address ≥ uintSub pc 2 ∨
      (s.Address ^^^ (pc &&& 1)) = 1) := by
    rw [uintSub_of_le pc 38 hpc h38, uintSub_of_le pc 2 hpc (by omega)]
    rintro (h | h | h)
    · omega
    · omega
    · have := xor_parity_bit s.Address pc h
      omega
  unfold selectBase
  rw [if_neg hnot]
  exact ⟨rfl, rfl⟩

/-- Witness for C7: base `0x200`, pointer `0x224` (offset 36). -/
theorem C7_stability_witness :
    (selectBase ⟨false, 0x200, [], 0⟩ 0x224).Address = 0x200 ∧
    selectBase ⟨false, 0x200, [], 0⟩ 0x224 = ⟨false, 0x200, [], 0⟩ :=
  C7_stability ⟨false, 0x200, [], 0⟩ 0x224 (by decide) (by decide) (by decide) (by decide)
    (by decide)

/-- C8: for every `uint` base `B` and pointer `P` with `P >= B + 38` the step
sets the base to `P - 2`; whenever the step changes the base at all, the new
base is `VM.PC - 2` (the `uint` difference, equal to `P - 2` when `P >= 2`);
and `B = 0x200`, `P = 0x238` gives the new base `0x236`. -/
theorem C8_recentre_past_end (s : State) (pc : Nat) (hpc : pc < wordSize) :
    (s.Address + 38 ≤ pc → (selectBase s pc).Address = pc - 2) ∧
    ((selectBase s pc).Address ≠ s.Address → (selectBase s pc).Address = uintSub pc 2) ∧
    ((selectBase s pc).Address ≠ s.Address → 2 ≤ pc → (selectBase s pc).Address = pc - 2) ∧
    (selectBase ⟨false, 0x200, [], 0⟩ 0x238).Address = 0x236 := by
  have hchg : (selectBase s pc).Address ≠ s.Address →
      (selectBase s pc).Address = uintSub pc 2 := by
    rw [selectBase_Address]
    split_ifs
    · intro _; rfl
    · intro h; exact absurd rfl h
  refine ⟨fun h => ?_, hchg, fun h h2 => ?_, by decide⟩
  · rw [selectBase_Address, if_pos, uintSub_of_le pc 2 hpc (by omega)]
    left
    rw [uintSub_of_le pc 38 hpc (by omega)]
    omega
  · rw [hchg h, uintSub_of_le pc 2 hpc h2]

/-- Witness for C8: base `0x200`, pointer `0x238`. -/
theorem C8_recentre_past_end_witness :
    (selectBase ⟨false, 0x200, [], 0⟩ 0x238).Address = 0x238 - 2 :=
  (C8_recentre_past_end ⟨false, 0x200, [], 0⟩ 0x238 (by decide)).1 (by decide)

/-- C9 (counterexample): with base `0x200` and pointer `0x236` the step does
not leave the base at `0x200`. -/
theorem C9_concrete_counterexample :
    (selectBase ⟨false, 0x200, [], 0⟩ 0x236).Address ≠ 0x200 := by
  decide

/-- C9 (amended): with base `B = 0x200` and pointer `P = 0x236` the pointer is
`0x36 = 54` bytes past the base, beyond the 38-byte window (`B <= P - 38`), and
the step re-centres the base to `P - 2 = 0x234`; the base `0x200` is left
unchanged for the pointer `P = 0x224` (36 bytes past the base). -/
theorem C9_concrete_recentre :
    0x200 ≤ uintSub 0x236 38 ∧
    (selectBase ⟨false, 0x200, [], 0⟩ 0x236).Address = 0x234 ∧
    (selectBase ⟨false, 0x200, [], 0⟩ 0x224).Address = 0x200 := by
  decide

/-- C10: for every log with more than 16 lines, every cursor with
`0 <= LogPos <= len(Log)-1` and every `delta > 0`, the cursor after
`DebugLogScroll(delta)` is at least 16, and it is exactly 16 when
`LogPos + delta < 16`. -/
theorem C10_forward_scroll_snap (s : State) (d : Int) (hfit : logFits s)
    (hlen : 16 < s.Log.length) (h0 : 0 ≤ s.LogPos) (_h1 : s.LogPos ≤ s.len - 1)
    (hd : 0 < d) :
    16 ≤ (DebugLogScroll s d).LogPos ∧
    (s.LogPos + d < 16 → (DebugLogScroll s d).LogPos = 16) := by
  have hl : 17 ≤ s.len := by unfold State.len; omega
  rw [scroll_LogPos, wrapInt_len_pred s hfit]
  simp only []
  constructor
  · split_ifs <;> omega
  · intro hsum
    rw [wrapInt_of_fits (s.LogPos + d) (by omega) (by omega)]
    split_ifs <;> omega

/-- Witness for C10: 17 lines, cursor `2`, `DebugLogScroll(3)`. -/
theorem C10_forward_scroll_snap_witness :
    16 ≤ (DebugLogScroll ⟨false, 0, List.replicate 17 [65], 2⟩ 3).LogPos ∧
    ((2 : Int) + 3 < 16 → (DebugLogScroll ⟨false, 0, List.replicate 17 [65], 2⟩ 3).LogPos = 16) :=
  C10_forward_scroll_snap ⟨false, 0, List.replicate 17 [65], 2⟩ 3 (by decide) (by decide)
    (by decide) (by decide) (by decide)

/-! ## Further claims about the log pager -/

theorem scrollAll_home_nonempty (s : State) (ds : List Int) (hfit : logFits s)
    (hne : s.Log ≠ []) (hpos : s.LogPos = 0)
    (hds : ∀ d ∈ ds, isGoInt d ∧ d < 0) : (scrollAll s ds).LogPos = 0 := by
  induction ds generalizing s with
  | nil => exact hpos
  | cons d ds ih =>
    show (scrollAll (DebugLogScroll s d) ds).LogPos = 0
    have hd := hds d (List.mem_cons_self d ds)
    have hl := len_pos_of_ne_nil s hne
    have hstep : (DebugLogScroll s d).LogPos = 0 := by
      rw [scroll_LogPos, wrapInt_len_pred s hfit, hpos]
      unfold isGoInt at hd
      rw [wrapInt_of_fits (0 + d) (by omega) (by omega)]
      simp only []
      split_ifs <;> omega
    exact ih (DebugLogScroll s d) (by unfold logFits; rw [scroll_Log]; exact hfit)
      (by rw [scroll_Log]; exact hne) hstep
      (fun e he => hds e (List.mem_cons_of_mem d he))

theorem scrollAll_empty (s : State) (d : Int) (ds : List Int) (he : s.Log = []) :
    (scrollAll s (d :: ds)).LogPos = -1 := by
  induction ds generalizing s d with
  | nil => exact scroll_empty s d he
  | cons e es ih =>
    show (scrollAll (DebugLogScroll s d) (e :: es)).LogPos = -1
    exact ih (DebugLogScroll s d) e (by rw [scroll_Log]; exact he)

/-- C11 (counterexample): on a log of 26 lines, `DebugLogScroll(+20)` from
cursor `5` leaves the cursor at `25`, not at `16`. -/
theorem C11_concrete_scroll_counterexample :
    (DebugLogScroll ⟨false, 0, List.replicate 26 [65], 5⟩ 20).LogPos = 25 ∧
    (DebugLogScroll ⟨false, 0, List.replicate 26 [65], 5⟩ 20).LogPos ≠ 16 := by
  decide

/-- C11 (amended): on every log with at least 26 lines, `DebugLogScroll(+20)`
from cursor `5` leaves the cursor at `5 + 20 = 25` (the sum is not below 16, so
the snap to 16 does not apply); a forward scroll from cursor `5` lands at 16
when the sum is below 16, as `DebugLogScroll(+5)` does. -/
theorem C11_concrete_scroll (s : State) (hfit : logFits s) (hlen : 26 ≤ s.Log.length)
    (hpos : s.LogPos = 5) :
    (DebugLogScroll s 20).LogPos = 25 ∧ (DebugLogScroll s 5).LogPos = 16 := by
  have hl : 26 ≤ s.len := by unfold State.len; omega
  constructor
  · rw [scroll_LogPos, wrapInt_len_pred s hfit, hpos,
      wrapInt_of_fits (5 + 20) (by omega) (by omega)]
    simp only []
    split_ifs <;> omega
  · rw [scroll_LogPos, wrapInt_len_pred s hfit, hpos,
      wrapInt_of_fits (5 + 5) (by omega) (by omega)]
    simp only []
    split_ifs <;> omega

/-- Witness for C11: a log of 30 lines. -/
theorem C11_concrete_scroll_witness :
    (DebugLogScroll ⟨false, 0, List.replicate 30 [65], 5⟩ 20).LogPos = 25 ∧
    (DebugLogScroll ⟨false, 0, List.replicate 30 [65], 5⟩ 5).LogPos = 16 :=
  C11_concrete_scroll ⟨false, 0, List.replicate 30 [65], 5⟩ (by decide) (by decide) (by decide)

/-- C12 (counterexample): on the empty log `DebugLogEnd` sets the cursor to
`-1`, not to `0`. -/
theorem C12_end_empty_counterexample :
    State.init.Log = [] ∧ (DebugLogEnd State.init).LogPos = -1 ∧
    (DebugLogEnd State.init).LogPos ≠ 0 := by
  decide

/-- C12 (amended): for every log and every prior cursor, `DebugLogEnd` sets the
cursor to `len(Log) - 1`: the last index when the log is non-empty, and `-1`
when the log is empty; it leaves the log unchanged and is idempotent. -/
theorem C12_end_cursor (s : State) (hfit : logFits s) :
    (DebugLogEnd s).LogPos = s.len - 1 ∧
    (s.Log = [] → (DebugLogEnd s).LogPos = -1) ∧
    (DebugLogEnd s).Log = s.Log ∧
    DebugLogEnd (DebugLogEnd s) = DebugLogEnd s := by
  have h : (DebugLogEnd s).LogPos = s.len - 1 := wrapInt_len_pred s hfit
  refine ⟨h, fun he => ?_, rfl, rfl⟩
  rw [h]
  unfold State.len
  rw [he]
  rfl

/-- Witness for C12: a log of three lines with the cursor at `0`. -/
theorem C12_end_cursor_witness :
    (DebugLogEnd ⟨false, 0, [[1], [2], [3]], 0⟩).LogPos =
      State.len ⟨false, 0, [[1], [2], [3]], 0⟩ - 1 ∧
    ((⟨false, 0, [[1], [2], [3]], 0⟩ : State).Log = [] →
      (DebugLogEnd ⟨false, 0, [[1], [2], [3]], 0⟩).LogPos = -1) ∧
    (DebugLogEnd ⟨false, 0, [[1], [2], [3]], 0⟩).Log =
      (⟨false, 0, [[1], [2], [3]], 0⟩ : State).Log ∧
    DebugLogEnd (DebugLogEnd ⟨false, 0, [[1], [2], [3]], 0⟩) =
      DebugLogEnd ⟨false, 0, [[1], [2], [3]], 0⟩ :=
  C12_end_cursor ⟨false, 0, [[1], [2], [3]], 0⟩ (by decide)

/-- C13 (counterexample): on the empty log, `DebugLogHome` followed by one
`DebugLogScroll(-1)` leaves the cursor at `-1`, not at `0`. -/
theorem C13_home_scroll_counterexample :
    (scrollAll (DebugLogHome State.init) [-1]).LogPos = -1 ∧
    (scrollAll (DebugLogHome State.init) [-1]).LogPos ≠ 0 := by
  decide

/-- C13 (amended): for every non-empty log, `DebugLogHome` followed by any
number (zero or more) of `DebugLogScroll(d)` calls with `d < 0` leaves the
cursor at `0`; on the empty log `DebugLogHome` alone leaves the cursor at `0`,
and followed by one or more `DebugLogScroll` calls it leaves the cursor at
`len(Log) - 1 = -1`. -/
theorem C13_home_then_scroll_back (s : State) (ds : List Int) (hfit : logFits s)
    (hds : ∀ d ∈ ds, isGoInt d ∧ d < 0) :
    (s.Log ≠ [] → (scrollAll (DebugLogHome s) ds).LogPos = 0) ∧
    (s.Log = [] → (scrollAll (DebugLogHome s) []).LogPos = 0 ∧
      (ds ≠ [] → (scrollAll (DebugLogHome s) ds).LogPos = -1)) := by
  refine ⟨fun hne => ?_, fun he => ⟨rfl, fun hds0 => ?_⟩⟩
  · exact scrollAll_home_nonempty (DebugLogHome s) ds hfit hne rfl hds
  · cases ds with
    | nil => exact absurd rfl hds0
    | cons d ds => exact scrollAll_empty (DebugLogHome s) d ds he

/-- Witness for C13: three lines, cursor `2`, then home and scrolls `-1, -40`. -/
theorem C13_home_then_scroll_back_witness :
    (scrollAll (DebugLogHome ⟨false, 0, [[1], [2], [3]], 2⟩) [-1, -40]).LogPos = 0 :=
  (C13_home_then_scroll_back ⟨false, 0, [[1], [2], [3]], 2⟩ [-1, -40] (by decide)
    (by decide)).1 (by decide)

theorem applyOp_log_grows (s : State) (op : PagerOp) : s.Log <+: (applyOp s op).Log := by
  cases op with
  | scroll d => show s.Log <+: (DebugLogScroll s d).Log; rw [scroll_Log]
  | home => exact List.prefix_refl _
  | toEnd => exact List.prefix_refl _
  | drain pending =>
    cases pending with
    | none => exact List.prefix_refl _
    | some t =>
      show s.Log <+: (drainPending s (some t)).Log
      rw [drain_some_Log]
      exact List.prefix_append _ _

theorem runOps_log_grows (s : State) (ops : List PagerOp) : s.Log <+: (runOps s ops).Log := by
  induction ops generalizing s with
  | nil => exact List.prefix_refl _
  | cons op ops ih =>
    show s.Log <+: (runOps (applyOp s op) ops).Log
    exact (applyOp_log_grows s op).trans (ih (applyOp s op))

theorem getElem?_of_initial {α : Type} (l₁ l₂ : List α) (h : l₁ <+: l₂) (i : Nat)
    (hi : i < l₁.length) : l₂[i]? = l₁[i]? := by
  obtain ⟨t, rfl⟩ := h
  exact List.getElem?_append_left hi

/-- C16: the log is append-only. For every state and every operation among
`DebugLogScroll(d)`, `DebugLogHome`, `DebugLogEnd` and the drain step, and for
every finite sequence of them, the log before is a prefix of the log after, so
every index keeps its line; scroll, home, end and a drain step with no pending
line leave the log unchanged, the last of these leaves the whole state (cursor
included) unchanged, and a drain step with a pending line appends exactly that
line. -/
theorem C16_log_append_only (s : State) :
    (∀ op, s.Log <+: (applyOp s op).Log) ∧
    (∀ op i, i < s.Log.length → (applyOp s op).Log[i]? = s.Log[i]?) ∧
    (∀ ops, s.Log <+: (runOps s ops).Log) ∧
    (∀ ops i, i < s.Log.length → (runOps s ops).Log[i]? = s.Log[i]?) ∧
    (∀ d, (DebugLogScroll s d).Log = s.Log) ∧
    (DebugLogHome s).Log = s.Log ∧
    (DebugLogEnd s).Log = s.Log ∧
    (drainPending s none).Log = s.Log ∧
    (drainPending s none).LogPos = s.LogPos ∧
    (∀ t, (drainPending s (some t)).Log = s.Log ++ [t]) ∧
    (∀ t, (drainPending s (some t)).Log.length = s.Log.length + 1) :=
  ⟨applyOp_log_grows s,
   fun op i hi => getElem?_of_initial _ _ (applyOp_log_grows s op) i hi,
   runOps_log_grows s,
   fun ops i hi => getElem?_of_initial _ _ (runOps_log_grows s ops) i hi,
   scroll_Log s, rfl, rfl, rfl, rfl, drain_some_Log s,
   fun t => by rw [drain_some_Log]; simp⟩

/-- Witness for C16: a drain step with a pending line keeps the line at
index 1 of a two-line log. -/
theorem C16_log_append_only_witness :
    (applyOp ⟨false, 0, [[1], [2]], 1⟩ (.drain (some [3]))).Log[1]? =
      (⟨false, 0, [[1], [2]], 1⟩ : State).Log[1]? :=
  (C16_log_append_only ⟨false, 0, [[1], [2]], 1⟩).2.1 (.drain (some [3])) 1 (by decide)

/-! ## Further claims about the disassembly window -/

/-- C19: for every base and every pointer, applying the base-selection step of
`DebugAssembly` twice with the same `VM.PC` gives the same state, base
included, as applying it once. -/
theorem C19_selectBase_idempotent (s : State) (pc : Nat) :
    selectBase (selectBase s pc) pc = selectBase s pc ∧
    (selectBase (selectBase s pc) pc).Address = (selectBase s pc).Address := by
  have h : selectBase (selectBase s pc) pc = selectBase s pc := by
    by_cases hc : s.Address ≤ uintSub pc 38 ∨ s.Address ≥ uintSub pc 2 ∨
        (s.Address ^^^ (pc &&& 1)) = 1
    · have h1 : selectBase s pc = { s with Address := uintSub pc 2 } := by
        unfold selectBase; rw [if_pos hc]
      rw [h1]
      unfold selectBase
      rw [if_pos (Or.inr (Or.inl (le_refl _)))]
    · have h1 : selectBase s pc = s := by
        unfold selectBase; rw [if_neg hc]
      rw [h1, h1]
  exact ⟨h, by rw [h]⟩

/-! ## The memory dump -/

theorem and_mask_eq (I : Nat) : I &&& 0xFFF0 = I % 65536 / 16 * 16 := by
  have h1 : (0xFFF0 : Nat) = (2 ^ 12 - 1) <<< 4 := by decide
  have h2 : I % 65536 / 16 * 16 = ((I >>> 4) % 2 ^ 12) <<< 4 := by
    rw [Nat.shiftLeft_eq, Nat.shiftRight_eq_div_pow]
    omega
  rw [h1, h2]
  apply Nat.eq_of_testBit_eq
  intro i
  simp only [Nat.testBit_and, Nat.testBit_shiftLeft, Nat.testBit_mod_two_pow,
    Nat.testBit_shiftRight, Nat.testBit_two_pow_sub_one]
  by_cases h : 4 ≤ i
  · simp [h, Bool.and_comm]
  · simp [h]

theorem dumpBase_eq (I : Nat) : dumpBase I = ((I % 65536 / 16 * 16 : Nat) : Int) := by
  unfold dumpBase
  rw [and_mask_eq]

theorem rowStart_natCast (a line : Nat) (ha : a ≤ 65520) (hl : line ≤ 8) :
    rowStart (a : Int) (line : Int) = ((a + 8 * line : Nat) : Int) := by
  unfold rowStart wrapInt
  omega

theorem take_succ_drop {α : Type} (l : List α) (i k : Nat) (h : i < l.length) :
    (l.drop i).take (k + 1) = l[i] :: (l.drop (i + 1)).take k := by
  rw [List.drop_eq_getElem_cons h, List.take_succ_cons]

theorem goIndex_wrap_add (mem : List UInt8) (n j : Nat) (h : n + j < mem.length)
    (hfit : mem.length < 9223372036854775808) :
    goIndex mem (wrapInt ((n : Int) + (j : Int))) = some mem[n + j] := by
  have hw : wrapInt ((n : Int) + (j : Int)) = ((n + j : Nat) : Int) := by
    rw [wrapInt_of_fits] <;> omega
  rw [hw, goIndex_natCast mem (n + j) h]

theorem dumpRow_ok (mem : List UInt8) (n : Nat) (h : n + 7 < mem.length)
    (hfit : mem.length < 9223372036854775808) :
    dumpRow mem (n : Int) = some (memRow mem n) := by
  have e0 := goIndex_wrap_add mem n 0 (by omega) hfit
  have e1 := goIndex_wrap_add mem n 1 (by omega) hfit
  have e2 := goIndex_wrap_add mem n 2 (by omega) hfit
  have e3 := goIndex_wrap_add mem n 3 (by omega) hfit
  have e4 := goIndex_wrap_add mem n 4 (by omega) hfit
  have e5 := goIndex_wrap_add mem n 5 (by omega) hfit
  have e6 := goIndex_wrap_add mem n 6 (by omega) hfit
  have e7 := goIndex_wrap_add mem n 7 (by omega) hfit
  simp only [Nat.cast_ofNat, Nat.cast_zero, Nat.cast_one] at e0 e1 e2 e3 e4 e5 e6 e7
  unfold dumpRow memRow
  rw [e0, e1, e2, e3, e4, e5, e6, e7]
  rw [take_succ_drop mem n 7 (by omega), take_succ_drop mem (n + 1) 6 (by omega),
    take_succ_drop mem (n + 1 + 1) 5 (by omega), take_succ_drop mem (n + 1 + 1 + 1) 4 (by omega),
    take_succ_drop mem (n + 1 + 1 + 1 + 1) 3 (by omega),
    take_succ_drop mem (n + 1 + 1 + 1 + 1 + 1) 2 (by omega),
    take_succ_drop mem (n + 1 + 1 + 1 + 1 + 1 + 1) 1 (by omega),
    take_succ_drop mem (n + 1 + 1 + 1 + 1 + 1 + 1 + 1) 0 (by omega)]
  rfl

/-- The loop of `DebugMemory` prints the rows `line, line+1, ...` as long as
their start is below the memory size; since the starts increase, the printed
rows are an initial run of the remaining ones. -/
theorem dumpLoop_rows (mem : List UInt8) (hmem : mem.length = 4096) (a : Nat)
    (ha : a ≤ 65520) (ha8 : a % 8 = 0) (k line : Nat) (hk : line + k ≤ 8) :
    dumpLoop mem (a : Int) k (line : Int) =
      some ((List.range' line (min (line + k) ((4096 - a) / 8) - line)).map
        (fun r => memRow mem (a + 8 * r))) := by
  induction k generalizing line with
  | zero =>
    have : min (line + 0) ((4096 - a) / 8) - line = 0 := by omega
    rw [this]
    rfl
  | succ k ih =>
    have hw : wrapInt ((line : Int) + 1) = ((line + 1 : Nat) : Int) := by
      rw [wrapInt_of_fits] <;> omega
    have hih := ih (line + 1) (by omega)
    unfold dumpLoop
    rw [rowStart_natCast a line ha (by omega), hw, hih]
    by_cases hc : ((a + 8 * line : Nat) : Int) < 0x1000
    · have hlt : a + 8 * line < 4096 := by omega
      rw [if_pos hc, dumpRow_ok mem (a + 8 * line) (by omega) (by omega)]
      have hm : min (line + (k + 1)) ((4096 - a) / 8) - line =
          (min (line + 1 + k) ((4096 - a) / 8) - (line + 1)) + 1 := by omega
      rw [hm, List.range'_succ]
      rfl
    · have hge : 4096 ≤ a + 8 * line := by omega
      rw [if_neg hc]
      have hm1 : min (line + (k + 1)) ((4096 - a) / 8) - line = 0 := by omega
      have hm2 : min (line + 1 + k) ((4096 - a) / 8) - (line + 1) = 0 := by omega
      rw [hm1, hm2]
      rfl

theorem DebugMemory_rows (I : Nat) (mem : List UInt8) (hmem : mem.length = 4096) :
    DebugMemory I mem =
      some (PrintCall.header ::
        (List.range (min 8 ((4096 - I % 65536 / 16 * 16) / 8))).map
          (fun r => memRow mem (I % 65536 / 16 * 16 + 8 * r))) := by
  unfold DebugMemory
  rw [dumpBase_eq]
  have h := dumpLoop_rows mem hmem (I % 65536 / 16 * 16) (by omega) (by omega) 8 0 (by omega)
  simp only [Nat.cast_zero, Nat.zero_add, Nat.sub_zero] at h
  rw [h, List.range_eq_range']
  rfl

/-- C14: for every index register value `I < 0x1000` and a memory of `0x1000`
bytes, `DebugMemory` uses the base `I` rounded down to a multiple of 16, returns
without an index panic, and after the header prints rows of which the `r`-th
(counting from 0) is labelled `base + 8r` and lists the eight bytes at
`base + 8r` to `base + 8r + 7` in increasing address order. The rows printed are
those with `base + 8r < 0x1000`, `r < 8`: all eight when `I < 0xFD0`. -/
theorem C14_memory_dump_rows (I : Nat) (mem : List UInt8) (hI : I < 0x1000)
    (hmem : mem.length = 0x1000) :
    dumpBase I = ((I / 16 * 16 : Nat) : Int) ∧
    ∃ rows, DebugMemory I mem = some (PrintCall.header :: rows) ∧
      rows.length = min 8 ((0x1000 - I / 16 * 16) / 8) ∧
      (I < 0xFD0 → rows.length = 8) ∧
      ∀ r, r < rows.length →
        rows[r]? = some (memRow mem (I / 16 * 16 + 8 * r)) ∧
        ∀ j, j < 8 →
          ((mem.drop (I / 16 * 16 + 8 * r)).take 8)[j]? = mem[I / 16 * 16 + 8 * r + j]? := by
  have hbase : I % 65536 / 16 * 16 = I / 16 * 16 := by omega
  have hrun := DebugMemory_rows I mem hmem
  rw [hbase] at hrun
  refine ⟨by rw [dumpBase_eq, hbase], _, hrun, ?_, ?_, ?_⟩
  · simp
  · intro h
    simp only [List.length_map, List.length_range]
    omega
  · intro r hr
    simp only [List.length_map, List.length_range] at hr
    constructor
    · rw [List.getElem?_map, List.getElem?_range hr]
      rfl
    · intro j hj
      rw [List.getElem?_take_of_lt hj, List.getElem?_drop]

/-- Witness for C14: `I = 0x305` gives base `0x300`; row 0 covers
`0x300..0x307` and row 7 covers `0x338..0x33F`. -/
theorem C14_memory_dump_rows_witness :
    dumpBase 0x305 = 0x300 ∧
    ∃ rows, DebugMemory 0x305 (List.replicate 0x1000 7) = some (PrintCall.header :: rows) ∧
      rows.length = 8 ∧
      rows[0]? = some (memRow (List.replicate 0x1000 7) 0x300) ∧
      rows[7]? = some (memRow (List.replicate 0x1000 7) 0x338) := by
  obtain ⟨hb, rows, hrun, _, h8, hrows⟩ :=
    C14_memory_dump_rows 0x305 (List.replicate 0x1000 7) (by decide)
      (List.length_replicate _ _)
  have hlen := h8 (by decide)
  exact ⟨hb, rows, hrun, hlen, (hrows 0 (by omega)).1, (hrows 7 (by omega)).1⟩

/-- C15: for every value of the index register (of any magnitude) and a
memory of `0x1000` bytes, every row start `n` that `DebugMemory` computes is
non-negative and satisfies `n < 0x1000` exactly when `n + 7 < 0x1000`;
`DebugMemory` returns without an index panic; every printed row starts at a
computed row start `n` with `0 <= n` and `n + 7 < 0x1000`; and the row of a
computed start `n` is printed exactly when `n + 7 < 0x1000`. -/
theorem C15_memory_dump_bounds (I : Nat) (mem : List UInt8) (hmem : mem.length = 0x1000) :
    (∀ line : Nat, line < 8 →
      0 ≤ rowStart (dumpBase I) line ∧
      (rowStart (dumpBase I) line < 0x1000 ↔ rowStart (dumpBase I) line + 7 < 0x1000)) ∧
    ∃ out, DebugMemory I mem = some out ∧
      (∀ n bytes, PrintCall.row n bytes ∈ out →
        0 ≤ n ∧ n + 7 < 0x1000 ∧ bytes.length = 8 ∧
        ∃ line : Nat, line < 8 ∧ n = rowStart (dumpBase I) line) ∧
      (∀ line : Nat, line < 8 →
        ((∃ bytes, PrintCall.row (rowStart (dumpBase I) line) bytes ∈ out) ↔
          rowStart (dumpBase I) line + 7 < 0x1000)) := by
  have hrs : ∀ line : Nat, line < 8 →
      rowStart (dumpBase I) line = ((I % 65536 / 16 * 16 + 8 * line : Nat) : Int) := by
    intro line hl
    rw [dumpBase_eq, rowStart_natCast _ line (by omega) (by omega)]
  have hmemrow : ∀ (n : Int) (bytes : List UInt8) (m : Nat),
      PrintCall.row n bytes ∈ PrintCall.header ::
          (List.range m).map (fun r => memRow mem (I % 65536 / 16 * 16 + 8 * r)) →
        ∃ r, r < m ∧ n = ((I % 65536 / 16 * 16 + 8 * r : Nat) : Int) ∧
          bytes = (mem.drop (I % 65536 / 16 * 16 + 8 * r)).take 8 := by
    intro n bytes m hin
    rcases List.mem_cons.mp hin with h | h
    · exact absurd h (by simp)
    · obtain ⟨r, hr, he⟩ := List.mem_map.mp h
      unfold memRow at he
      injection he with h1 h2
      exact ⟨r, List.mem_range.mp hr, h1.symm, h2.symm⟩
  refine ⟨fun line hl => ?_, _, DebugMemory_rows I mem hmem, ?_, ?_⟩
  · rw [hrs line hl]
    omega
  · intro n bytes hin
    obtain ⟨r, hr, hn, hb⟩ := hmemrow n bytes _ hin
    refine ⟨by omega, by omega, ?_, r, by omega, ?_⟩
    · rw [hb, List.length_take, List.length_drop, hmem]
      omega
    · rw [hrs r (by omega)]
      exact hn
  · intro line hl
    rw [hrs line hl]
    constructor
    · rintro ⟨bytes, hin⟩
      obtain ⟨r, hr, hn, _⟩ := hmemrow _ bytes _ hin
      omega
    · intro h
      refine ⟨(mem.drop (I % 65536 / 16 * 16 + 8 * line)).take 8, List.mem_cons_of_mem _ ?_⟩
      exact List.mem_map.mpr ⟨line, List.mem_range.mpr (by omega), rfl⟩

/-- Witness for C15: `I = 0xFFF`, where only the rows at `0xFF0` and `0xFF8`
lie inside the memory. -/
theorem C15_memory_dump_bounds_witness :
    ∃ out, DebugMemory 0xFFF (List.replicate 0x1000 7) = some out ∧
      ((∃ bytes, PrintCall.row (rowStart (dumpBase 0xFFF) (1 : Nat)) bytes ∈ out) ↔
        rowStart (dumpBase 0xFFF) (1 : Nat) + 7 < 0x1000) ∧
      ((∃ bytes, PrintCall.row (rowStart (dumpBase 0xFFF) (2 : Nat)) bytes ∈ out) ↔
        rowStart (dumpBase 0xFFF) (2 : Nat) + 7 < 0x1000) := by
  obtain ⟨_, out, hrun, _, hiff⟩ :=
    C15_memory_dump_bounds 0xFFF (List.replicate 0x1000 7) (List.length_replicate _ _)
  exact ⟨out, hrun, hiff 1 (by decide), hiff 2 (by decide)⟩

/-! ## The highlighted row of `DebugAssembly` -/

theorem mem_asmSlots (i : Nat) : i ∈ asmSlots ↔ i % 2 = 0 ∧ i ≤ 36 := by
  unfold asmSlots
  rw [List.mem_map]
  constructor
  · rintro ⟨k, hk, rfl⟩
    have := List.mem_range.mp hk
    omega
  · rintro ⟨h2, h36⟩
    exact ⟨i / 2, List.mem_range.mpr (by omega), by omega⟩

theorem asmSlots_nodup : asmSlots.Nodup := by decide

/-- When the slot `i0` holds the pointer, it is the only highlighted slot: the
nineteen slot addresses are pairwise distinct modulo `2^64`. -/
theorem highlightedSlots_eq_singleton (addr pc i0 : Nat) (hi0 : i0 ∈ asmSlots)
    (h : uintAdd addr i0 = pc) : highlightedSlots addr pc = [i0] := by
  have hb := (mem_asmSlots i0).mp hi0
  have hcongr : asmSlots.filter (fun i => decide (uintAdd addr i = pc)) =
      asmSlots.filter (fun i => decide (i = i0)) := by
    apply List.filter_congr
    intro i hi
    have hbi := (mem_asmSlots i).mp hi
    have hiff : uintAdd addr i = pc ↔ i = i0 := by
      constructor
      · intro hi2
        rw [← h] at hi2
        unfold uintAdd wordSize at hi2
        omega
      · rintro rfl
        exact h
    simp only [hiff]
  unfold highlightedSlots
  rw [hcongr, List.filter_eq, List.count_eq_one_of_mem asmSlots_nodup hi0]
  rfl

theorem asmRow_eq (paused : Bool) (addr pc : Nat) (disasm : Nat → GoString) (x y : Int)
    (i : Nat) :
    asmRow paused addr pc disasm x y i =
      (if uintAdd addr i = pc then [highlightColor paused, slotRect x y i] else []) ++
        [slotText addr disasm x y i] := rfl

/-- The `FillRect` calls of the loop are the rectangles of the highlighted
slots, in slot order. -/
theorem fillRect_calls (paused : Bool) (addr pc : Nat) (disasm : Nat → GoString) (x y : Int)
    (l : List Nat) :
    (l.flatMap (asmRow paused addr pc disasm x y)).filter RenderOp.isFillRect =
      (l.filter (fun i => decide (uintAdd addr i = pc))).map (slotRect x y) := by
  induction l with
  | nil => rfl
  | cons i l ih =>
    rw [List.flatMap_cons, List.filter_append, ih, List.filter_cons, asmRow_eq]
    unfold highlightColor slotRect slotText
    by_cases hp : uintAdd addr i = pc
    · rw [if_pos hp, if_pos (decide_eq_true hp)]
      cases paused <;> simp [RenderOp.isFillRect]
    · rw [if_neg hp, if_neg (by simpa using hp)]
      simp [RenderOp.isFillRect]

/-- When the slot `i0` is the one that holds the pointer, every row of the loop
is its text, preceded by colour and rectangle exactly on the row `i0`. -/
theorem asmRows_of_slot (paused : Bool) (addr pc i0 : Nat) (disasm : Nat → GoString)
    (x y : Int) (hi0 : i0 ∈ asmSlots) (h : uintAdd addr i0 = pc) :
    asmSlots.flatMap (asmRow paused addr pc disasm x y) =
      asmSlots.flatMap (fun i =>
        (if i = i0 then [highlightColor paused, slotRect x y i0] else []) ++
          [slotText addr disasm x y i]) := by
  have hb := (mem_asmSlots i0).mp hi0
  apply List.flatMap_congr
  intro i hi
  have hbi := (mem_asmSlots i).mp hi
  rw [asmRow_eq]
  by_cases hp : i = i0
  · subst hp
    rw [if_pos h, if_pos rfl]
  · have hne : uintAdd addr i ≠ pc := by
      intro hi2
      rw [← h] at hi2
      unfold uintAdd wordSize at hi2
      omega
    rw [if_neg hne, if_neg hp]

/-- C18: for every `uint` base `B` and pointer `P` with `P - B` even, after the
base-selection step of `DebugAssembly` exactly one of the nineteen slot
addresses `B', B'+2, ..., B'+36` equals `P`, say the one of loop variable `i0`.
The renderer calls of `DebugAssembly` are then, row by row, the text of the
row, preceded by the highlight colour and the rectangle exactly on the row
`i0`: the only `FillRect` call is the rectangle of row `i0`, at
`Y = int32(y + i0*5) - 1`. Whenever the step re-centred the window (its
condition held), `i0 = 2`: the highlighted row is the second one, its rectangle
is at `Y = int32(y + 10) - 1`, and the first slot address differs from `P`. -/
theorem C18_highlight_presence (s : State) (pc : Nat) (disasm : Nat → GoString) (x y : Int)
    (hB : s.Address < wordSize) (hpc : pc < wordSize)
    (hpar : ((pc : Int) - (s.Address : Int)) % 2 = 0) :
    ∃ i0, i0 ∈ asmSlots ∧
      uintAdd (selectBase s pc).Address i0 = pc ∧
      (∀ i, i ∈ asmSlots → uintAdd (selectBase s pc).Address i = pc → i = i0) ∧
      highlightedSlots (selectBase s pc).Address pc = [i0] ∧
      (DebugAssembly s pc disasm x y).1 = selectBase s pc ∧
      (DebugAssembly s pc disasm x y).2 =
        asmSlots.flatMap (fun i =>
          (if i = i0 then [highlightColor s.Paused, slotRect x y i0] else []) ++
            [slotText (selectBase s pc).Address disasm x y i]) ∧
      (DebugAssembly s pc disasm x y).2.filter RenderOp.isFillRect = [slotRect x y i0] ∧
      ((DebugAssembly s pc disasm x y).2.filter RenderOp.isFillRect).length = 1 ∧
      ((s.Address ≤ uintSub pc 38 ∨ s.Address ≥ uintSub pc 2 ∨
          (s.Address ^^^ (pc &&& 1)) = 1) →
        (selectBase s pc).Address = uintSub pc 2 ∧
        i0 = 2 ∧
        uintAdd (selectBase s pc).Address 0 ≠ pc ∧
        (DebugAssembly s pc disasm x y).2.filter RenderOp.isFillRect =
          [RenderOp.fillRect (wrapInt32 x) (wrapInt32 (wrapInt32 (wrapInt (y + 10)) - 1))
            200 10]) := by
  have hpaused : (selectBase s pc).Paused = s.Paused := by
    unfold selectBase
    split_ifs <;> rfl
  -- the slot that holds the pointer
  have hslot : ∃ i0, i0 ∈ asmSlots ∧ uintAdd (selectBase s pc).Address i0 = pc ∧
      ((s.Address ≤ uintSub pc 38 ∨ s.Address ≥ uintSub pc 2 ∨
          (s.Address ^^^ (pc &&& 1)) = 1) →
        (selectBase s pc).Address = uintSub pc 2 ∧ i0 = 2 ∧
          uintAdd (selectBase s pc).Address 0 ≠ pc) := by
    by_cases hc : s.Address ≤ uintSub pc 38 ∨ s.Address ≥ uintSub pc 2 ∨
        (s.Address ^^^ (pc &&& 1)) = 1
    · have ha : (selectBase s pc).Address = uintSub pc 2 := by
        rw [selectBase_Address, if_pos hc]
      rw [ha]
      refine ⟨2, by decide, ?_, fun _ => ⟨rfl, rfl, ?_⟩⟩
      · unfold uintAdd uintSub wordSize at *
        omega
      · unfold uintAdd uintSub wordSize at *
        omega
    · have ha : (selectBase s pc).Address = s.Address := by
        rw [selectBase_Address, if_neg hc]
      rw [ha]
      have h1 : ¬ s.Address ≤ uintSub pc 38 := fun h => hc (Or.inl h)
      have h2 : ¬ s.Address ≥ uintSub pc 2 := fun h => hc (Or.inr (Or.inl h))
      by_cases hle : s.Address ≤ pc
      · refine ⟨pc - s.Address, (mem_asmSlots _).mpr ?_, ?_, fun h => absurd h hc⟩
        · unfold uintSub wordSize at *
          omega
        · unfold uintAdd uintSub wordSize at *
          omega
      · refine ⟨wordSize + pc - s.Address, (mem_asmSlots _).mpr ?_, ?_, fun h => absurd h hc⟩
        · unfold uintSub wordSize at *
          omega
        · unfold uintAdd uintSub wordSize at *
          omega
  obtain ⟨i0, hi0, he, hre⟩ := hslot
  have hhl := highlightedSlots_eq_singleton _ pc i0 hi0 he
  have hops : (DebugAssembly s pc disasm x y).2 =
      asmSlots.flatMap (fun i =>
        (if i = i0 then [highlightColor s.Paused, slotRect x y i0] else []) ++
          [slotText (selectBase s pc).Address disasm x y i]) := by
    show asmSlots.flatMap (asmRow (selectBase s pc).Paused (selectBase s pc).Address pc
      disasm x y) = _
    rw [hpaused]
    exact asmRows_of_slot s.Paused _ pc i0 disasm x y hi0 he
  have hfill : (DebugAssembly s pc disasm x y).2.filter RenderOp.isFillRect =
      [slotRect x y i0] := by
    show (asmSlots.flatMap (asmRow (selectBase s pc).Paused (selectBase s pc).Address pc
      disasm x y)).filter RenderOp.isFillRect = _
    rw [fillRect_calls]
    have : asmSlots.filter (fun i => decide (uintAdd (selectBase s pc).Address i = pc)) =
        [i0] := hhl
    rw [this]
    rfl
  refine ⟨i0, hi0, he, ?_, hhl, rfl, hops, hfill, by rw [hfill]; rfl, fun hc => ?_⟩
  · intro i hi hip
    have hmem : i ∈ highlightedSlots (selectBase s pc).Address pc := by
      unfold highlightedSlots
      exact List.mem_filter.mpr ⟨hi, decide_eq_true hip⟩
    rw [hhl] at hmem
    exact List.mem_singleton.mp hmem
  · obtain ⟨ha, h2, h0⟩ := hre hc
    refine ⟨ha, h2, h0, ?_⟩
    rw [hfill, h2]
    have hw : wrapInt (((2 : Nat) : Int) * 5) = 10 := by decide
    unfold slotRect
    rw [hw]

/-- Witness for C18: from base `0x200` with the pointer at `0x210` the window
stays and the only rectangle is on the ninth row (loop variable 16); from the
initial state with the pointer at `0x200` the window is re-centred and the only
rectangle is on the second row. -/
theorem C18_highlight_presence_witness :
    (DebugAssembly ⟨false, 0x200, [], 0⟩ 0x210 (fun _ => []) 0 0).2.filter RenderOp.isFillRect =
      [RenderOp.fillRect 0 79 200 10] ∧
    (DebugAssembly State.init 0x200 (fun _ => []) 0 0).2.filter RenderOp.isFillRect =
      [RenderOp.fillRect 0 9 200 10] := by
  constructor
  · obtain ⟨i0, _, _, _, hhl, _, _, hfill, _, _⟩ :=
      C18_highlight_presence ⟨false, 0x200, [], 0⟩ 0x210 (fun _ => []) 0 0 (by decide)
        (by decide) (by decide)
    have h16 : highlightedSlots (selectBase ⟨false, 0x200, [], 0⟩ 0x210).Address 0x210 = [16] := by
      decide
    rw [h16] at hhl
    have hi : i0 = 16 := by
      injection hhl with h _
      exact h.symm
    rw [hfill, hi]
    decide
  · obtain ⟨i0, _, _, _, _, _, _, _, _, hre⟩ :=
      C18_highlight_presence State.init 0x200 (fun _ => []) 0 0 (by decide) (by decide)
        (by decide)
    rw [(hre (by decide)).2.2.2]
    decide

end Chip8Debug
